import Mathlib

/-!
Verification development for the state-management core of the
`DenimSupplierWizard` React component (denim supplier onboarding wizard).

The embedding models:
- the JSON-like value space of the wizard document (`Val`, `Doc`);
- the path-addressed update `setAt` (including its observable mutation of
  the original document: the source shallow-copies only the root object and
  then descends into the *shared* nested objects, so writes at depth ≥ 2 hit
  objects still reachable from the caller's old document — `setAtParts`
  returns both the new root and what the old document looks like after the
  call);
- the startup load from the persisted snapshot (`initState`);
- the step list and `next`/`back` navigation (`nextStep`, `backStep`);
- the keyboard handler (`onKey`) over the ephemeral navigation state;
- the debounced autosave scheduler (`fireDue`, `applyEv`, `runEvs`, `flush`);
- the `Checkset` multi-select toggle (`jsSetOf`, `toggleOption`);
- the numeric coercion helper `toNum` over a model of JS `Number` coercion
  on decimal literals (`jsNumber`), and the pH-window normalizer `mapPh`.

JS reference semantics ("the exact same object") is modelled functionally:
carrying an entry over unchanged corresponds to the code copying the
reference, and mutation of a shared subtree is made explicit by returning
the post-call value of the old document alongside the new one.
-/

/-- Model of a JS number as produced by `Number(string)`: either NaN or an
exact decimal value (modelled as a rational; the inputs in this program are
short decimal literals, so floating-point rounding is irrelevant to the
claims checked here). -/
inductive JsNum where
  | nan : JsNum
  | num : ℚ → JsNum
deriving DecidableEq, Repr

mutual
/-- JSON-like values stored in the wizard document.  Multi-select fields
hold lists of strings (`vlist`); nested sections are objects (`vobj`)
whose entries are kept in insertion order, matching JS object key order.
`vundef` models the JS `undefined` value stored under a present key
(as `toNum` can produce). -/
inductive Val where
  | vnull : Val
  | vundef : Val
  | vbool : Bool → Val
  | vnum : JsNum → Val
  | vstr : String → Val
  | vlist : List String → Val
  | vobj : Entries → Val

/-- The entry sequence of a JS object, in key-insertion order. -/
inductive Entries where
  | nil : Entries
  | cons : String → Val → Entries → Entries
end

deriving instance DecidableEq for Val
deriving instance DecidableEq for Entries

/-- A document root: a JS object, given by its entries. -/
abbrev Doc := Entries

/-- Build an object entry sequence from a list of pairs (concrete-document
convenience). -/
def entriesOf : List (String × Val) → Entries
  | [] => .nil
  | (k, v) :: rest => .cons k v (entriesOf rest)

/-- JS property write `o[k] = v` on an object: replaces the value of an
existing key in place (keeping its position, as JS does) or appends a new
key at the end. -/
def insertKV (k : String) (v : Val) : Doc → Doc
  | .nil => .cons k v .nil
  | .cons k' v' es => if k' = k then .cons k v es else .cons k' v' (insertKV k v es)

/-- JS property read `o[k]`: the value of the first matching key, `none`
when the key is absent. -/
def lookupKV (k : String) : Doc → Option Val
  | .nil => none
  | .cons k' v' es => if k' = k then some v' else lookupKV k es

/-- Whether a value is nullish (`null` or `undefined`), i.e. whether
`x ?? {}` replaces it. -/
def nullish : Val → Bool
  | .vnull => true
  | .vundef => true
  | _ => false

/-- The in-place walk of `setAt`'s loop from the second path segment on:
`cur[k] = cur[k] ?? {}` then descend, finally `cur[last] = value`.  This is
exactly what happens to the object the walk starts in, which the source
*shares* with the original document (only the root was copied).  Returns
`none` when the walk hits a non-nullish non-object intermediate value, where
the strict-mode property assignment throws a TypeError (the spec declares
this undefined behavior). -/
def mutSet (es : Doc) : List String → Val → Option Doc
  | [], _ => none
  | [k], v => some (insertKV k v es)
  | k :: k2 :: rest, v =>
    match lookupKV k es with
    | some (.vobj es') => (mutSet es' (k2 :: rest) v).map (fun r => insertKV k (.vobj r) es)
    | some .vnull => (mutSet .nil (k2 :: rest) v).map (fun r => insertKV k (.vobj r) es)
    | some .vundef => (mutSet .nil (k2 :: rest) v).map (fun r => insertKV k (.vobj r) es)
    | none => (mutSet .nil (k2 :: rest) v).map (fun r => insertKV k (.vobj r) es)
    | some _ => none

/-- `setAt` on an already-split path: returns `(newRoot, oldAfter)` where
`newRoot` is the returned document and `oldAfter` is the value of the
*original* document after the call.  The source shallow-copies only the
root (`{...obj}`); when the first segment maps to an existing object, the
remaining walk mutates that shared object, so the change is visible through
the old root as well.  When the first segment is absent or nullish, a fresh
object is attached to the copy only and the old root is untouched. -/
def setAtParts (d : Doc) : List String → Val → Option (Doc × Doc)
  | [], _ => none
  | [k], v => some (insertKV k v d, d)
  | k :: k2 :: rest, v =>
    match lookupKV k d with
    | some (.vobj es) =>
      (mutSet es (k2 :: rest) v).map (fun r => (insertKV k (.vobj r) d, insertKV k (.vobj r) d))
    | some .vnull => (mutSet .nil (k2 :: rest) v).map (fun r => (insertKV k (.vobj r) d, d))
    | some .vundef => (mutSet .nil (k2 :: rest) v).map (fun r => (insertKV k (.vobj r) d, d))
    | none => (mutSet .nil (k2 :: rest) v).map (fun r => (insertKV k (.vobj r) d, d))
    | some _ => none

/-- Auxiliary for `splitDot`: split a character list on `'.'`, like JS
`path.split(".")` for a single-character separator. -/
def splitDotAux : List Char → List (List Char)
  | [] => [[]]
  | c :: cs =>
    if c = '.' then [] :: splitDotAux cs
    else
      match splitDotAux cs with
      | [] => [[c]]
      | g :: gs => (c :: g) :: gs

/-- Model of JS `path.split(".")`: always returns a nonempty list of
segments. -/
def splitDot (s : String) : List String :=
  (splitDotAux s.data).map List.asString

/-- The path-addressed update `setAt(obj, path, value)` of the source, as a
pair `(returned new document, original document after the call)`; `none`
models the TypeError thrown on a non-object intermediate. -/
def setAt (d : Doc) (path : String) (v : Val) : Option (Doc × Doc) :=
  setAtParts d (splitDot path) v

/-- The seven top-level section keys of the wizard document
(`WizardState`). -/
def sectionKeys : List String :=
  ["warp_range", "indigo_control", "shade_finish", "etp", "footprints", "safety", "handover"]

/-- `DEFAULT_STATE`: all seven sections present as empty mappings. -/
def DEFAULT_STATE : Doc :=
  entriesOf (sectionKeys.map (fun k => (k, Val.vobj .nil)))

/-- Whether key `k` of document `d` is present and holds a mapping. -/
def isMapping (d : Doc) (k : String) : Bool :=
  match lookupKV k d with
  | some (.vobj _) => true
  | _ => false

/-- The §3 invariant: the value is an object containing all seven section
keys, each holding a mapping (possibly empty). -/
def hasAllSections (v : Val) : Bool :=
  match v with
  | .vobj es => sectionKeys.all (fun k => isMapping es k)
  | _ => false

/-- The startup initializer for the wizard document, from the persisted
snapshot: `none` models an absent storage slot, `some none` models a raw
string whose `JSON.parse` throws, and `some (some v)` models a raw string
that parses to the JSON value `v` — which the source returns verbatim
(`JSON.parse(raw) as WizardState`, a cast with no validation). -/
def initState (stored : Option (Option Val)) : Val :=
  match stored with
  | some (some v) => v
  | some none => .vobj DEFAULT_STATE
  | none => .vobj DEFAULT_STATE

/-- The seven step identifiers (`StepKey`). -/
inductive StepKey where
  | warp | indigo | shade | etp | footprints | safety | handover
deriving DecidableEq, Repr

/-- The fixed total order of the steps (`STEPS`, keys only; labels and
icons are presentational). -/
def STEPS : List StepKey :=
  [.warp, .indigo, .shade, .etp, .footprints, .safety, .handover]

/-- `STEPS.findIndex((s) => s.key === step)`. -/
def stepIndex (s : StepKey) : Nat :=
  STEPS.findIdx (fun k => k = s)

/-- `next`: advance to the following step, no-op at the last step. -/
def nextStep (s : StepKey) : StepKey :=
  let idx := stepIndex s
  if idx < STEPS.length - 1 then STEPS.getD (idx + 1) s else s

/-- `back`: move to the preceding step, no-op at the first step. -/
def backStep (s : StepKey) : StepKey :=
  let idx := stepIndex s
  if idx > 0 then STEPS.getD (idx - 1) s else s

/-- The ephemeral navigation state of the component: current step, advanced
drawer flag, expanded accordion key, why-panel flag, and whether the
command-palette dialog is open (`paletteRef` showModal/close). -/
structure NavState where
  step : StepKey
  advancedOpen : Bool
  openAccordion : Option String
  whyOpen : Bool
  paletteOpen : Bool
deriving DecidableEq, Repr

/-- A keyboard event as observed by the `onKey` handler: the key string,
the modifier flags, and whether the event target lies within the wizard's
container (`containerRef.current?.contains(target)`). -/
structure KeyEvent where
  key : String
  shiftKey : Bool
  ctrlKey : Bool
  metaKey : Bool
  targetWithin : Bool

/-- Model of JS `s.toLowerCase()` (character-wise). -/
def jsToLower (s : String) : String :=
  (s.data.map Char.toLower).asString

/-- The `onKey` keyboard handler's effect on the navigation state.  The
source returns early when the target is outside the container; then runs
its independent `if` branches in order: Ctrl/Meta+K opens the palette,
Ctrl/Meta+S writes to storage (no navigation-state effect), Escape closes
the advanced drawer, the accordion and the why panel (and nothing else),
Tab moves to the next step and Shift+Tab to the previous one (the inlined
index logic of those branches coincides with `nextStep`/`backStep`). -/
def onKey (e : KeyEvent) (s : NavState) : NavState :=
  if e.targetWithin = false then s
  else
    let s1 := if (e.ctrlKey || e.metaKey) && (jsToLower e.key = "k") then
      { s with paletteOpen := true } else s
    let s2 := if e.key = "Escape" then
      { s1 with advancedOpen := false, openAccordion := none, whyOpen := false } else s1
    let s3 := if e.key = "Tab" && !e.shiftKey then
      { s2 with step := nextStep s2.step } else s2
    if e.key = "Tab" && e.shiftKey then
      { s3 with step := backStep s3.step } else s3

/-- An event relevant to the autosave scheduler: a document change at a
given time (each run of the autosave effect, i.e. each new `state` value),
or the component teardown at a given time (the effect cleanup). -/
inductive SchedEv (α : Type) where
  | change : Nat → α → SchedEv α
  | teardown : Nat → SchedEv α

/-- Scheduler state: at most one pending write (the single `saveTimer`
handle), plus the log of storage writes performed so far, each with its
firing time. -/
structure SchedState (α : Type) where
  pending : Option (Nat × α)
  writes : List (Nat × α)

/-- The initial scheduler state: nothing pending, nothing written. -/
def schedInit (α : Type) : SchedState α :=
  { pending := none, writes := [] }

/-- Let the pending timer fire if its deadline has been reached by time
`now` (the event loop runs due timers before later events). -/
def fireDue {α : Type} (s : SchedState α) (now : Nat) : SchedState α :=
  match s.pending with
  | some (t, d) => if t ≤ now then { pending := none, writes := s.writes ++ [(t, d)] } else s
  | none => s

/-- One scheduler event: a document change first lets a due timer fire,
then clears any still-pending timer and schedules a write of the new value
500 units later (`clearTimeout` + `setTimeout(..., 500)`); teardown lets a
due timer fire and cancels any still-pending one (the effect cleanup). -/
def applyEv {α : Type} (s : SchedState α) : SchedEv α → SchedState α
  | .change t d => let s' := fireDue s t; { pending := some (t + 500, d), writes := s'.writes }
  | .teardown t => let s' := fireDue s t; { pending := none, writes := s'.writes }

/-- Run a time-ordered event sequence from the initial scheduler state. -/
def runEvs {α : Type} (evs : List (SchedEv α)) : SchedState α :=
  evs.foldl applyEv (schedInit α)

/-- All writes ever performed if the scheduler is left to run to
completion: the log so far plus the pending write, if any. -/
def flushWrites {α : Type} (s : SchedState α) : List (Nat × α) :=
  match s.pending with
  | some (t, d) => s.writes ++ [(t, d)]
  | none => s.writes

/-- `new Set(values)` as an insertion-ordered list: first occurrences
survive, later duplicates are dropped. -/
def jsSetOf (values : List String) : List String :=
  values.foldl (fun acc x => if x ∈ acc then acc else acc ++ [x]) []

/-- The `Checkset` toggle: build the set of current values, delete the
option if present, otherwise add it (JS `Set.add` appends at the end), and
return the set as an insertion-ordered array (`Array.from(set)`). -/
def toggleOption (values : List String) (o : String) : List String :=
  let s := jsSetOf values
  if o ∈ s then s.erase o else s ++ [o]

/-- JS whitespace as far as this model needs it. -/
def isWs (c : Char) : Bool :=
  c = ' ' || c = '\t' || c = '\n' || c = '\r'

/-- Trim leading and trailing whitespace (ECMAScript ToNumber trims the
input string before parsing). -/
def trimWs (cs : List Char) : List Char :=
  ((cs.dropWhile isWs).reverse.dropWhile isWs).reverse

/-- Digit-string value in base 10. -/
def digitsToNat (cs : List Char) : Nat :=
  cs.foldl (fun a c => a * 10 + (c.toNat - '0'.toNat)) 0

/-- Whether every character is a decimal digit. -/
def allDigits (cs : List Char) : Bool :=
  cs.all (fun c => c.isDigit)

/-- Parse an unsigned decimal literal `digits [. digits]` (at least one
digit overall) to its exact value. -/
def parseUnsignedDec (cs : List Char) : Option ℚ :=
  let ip := cs.takeWhile (fun c => c != '.')
  let rest := cs.drop ip.length
  if allDigits ip = false then none
  else
    match rest with
    | [] => if ip.isEmpty then none else some ((digitsToNat ip : ℚ))
    | '.' :: fp =>
      if allDigits fp = false then none
      else if ip.isEmpty && fp.isEmpty then none
      else some ((digitsToNat ip : ℚ) + (digitsToNat fp : ℚ) / ((10 : ℚ) ^ fp.length))
    | _ => none

/-- Parse an optionally signed decimal literal. -/
def parseDec : List Char → Option ℚ
  | '-' :: cs => (parseUnsignedDec cs).map (fun q => -q)
  | '+' :: cs => parseUnsignedDec cs
  | cs => parseUnsignedDec cs

/-- Model of JS `Number(s)` on the inputs reachable here: a whitespace-only
string coerces to `0`; otherwise a decimal literal parses to its value and
anything else is NaN.  (Exponent, hex, and `Infinity` forms are omitted:
they cannot be produced by the wizard's numeric inputs.) -/
def jsNumber (s : String) : JsNum :=
  let t := trimWs s.data
  if t.isEmpty then .num 0
  else
    match parseDec t with
    | some q => .num q
    | none => .nan

/-- `toNum`: the empty string becomes `undefined` (absent field, modelled
as `none`); any other string is passed to `Number`. -/
def toNum (s : String) : Option JsNum :=
  if s = "" then none else some (jsNumber s)

/-- `clampPct`: clamp a parsed percentage to `[0, 100]`, passing
`undefined` through. -/
def clampPct (n : Option JsNum) : Option JsNum :=
  match n with
  | some (.num q) => some (.num (max 0 (min 100 q)))
  | other => other

/-- Character-list core of the `String.prototype.startsWith` model. -/
def startsWithL : List Char → List Char → Bool
  | [], _ => true
  | _ :: _, [] => false
  | p :: ps, c :: cs => p = c && startsWithL ps cs

/-- Model of JS `s.startsWith(p)`. -/
def jsStartsWith (s p : String) : Bool :=
  startsWithL p.data s.data

/-- `mapPh`: normalize the displayed pH-window option to the stored
enumeration value. -/
def mapPh (v : String) : String :=
  if jsStartsWith v "10.0" then "10.0–10.4"
  else if jsStartsWith v "10.5" then "10.5–11.5"
  else if jsStartsWith v "11.6" then "11.6–12.0"
  else v

/-- A shared concrete document: `DEFAULT_STATE` after a successful
`setAt(·, "etp.blocks", ["Physical"])`. -/
def etpDoc1 : Doc :=
  insertKV "etp" (.vobj (.cons "blocks" (.vlist ["Physical"]) .nil)) DEFAULT_STATE

theorem lookupKV_insertKV_self (k : String) (v : Val) :
    ∀ d : Doc, lookupKV k (insertKV k v d) = some v
  | .nil => by simp [insertKV, lookupKV]
  | .cons k' v' es => by
    by_cases h : k' = k
    · simp [insertKV, lookupKV, h]
    · simp [insertKV, lookupKV, h, lookupKV_insertKV_self k v es]

theorem lookupKV_insertKV_ne {k' k : String} (h : k' ≠ k) (v : Val) :
    ∀ d : Doc, lookupKV k' (insertKV k v d) = lookupKV k' d
  | .nil => by
    have hne : ¬ (k = k') := fun hh => h hh.symm
    simp [insertKV, lookupKV, hne]
  | .cons k'' v'' es => by
    have hne : ¬ (k = k') := fun hh => h hh.symm
    by_cases hk : k'' = k
    · subst hk
      simp [insertKV, lookupKV, hne]
    · by_cases hk' : k'' = k'
      · subst hk'
        simp [insertKV, lookupKV, hk]
      · simp [insertKV, lookupKV, hk, hk', lookupKV_insertKV_ne h v es]

theorem insertKV_insertKV_same (k : String) (v : Val) :
    ∀ d : Doc, insertKV k v (insertKV k v d) = insertKV k v d
  | .nil => by simp [insertKV]
  | .cons k' v' es => by
    by_cases h : k' = k
    · simp [insertKV, h]
    · simp [insertKV, h, insertKV_insertKV_same k v es]

theorem mutSet_idem (parts : List String) :
    ∀ (es r : Doc) (v : Val), mutSet es parts v = some r → mutSet r parts v = some r := by
  induction parts with
  | nil => intro es r v h; simp [mutSet] at h
  | cons k rest ih =>
    intro es r v h
    cases rest with
    | nil =>
      simp only [mutSet, Option.some.injEq] at h
      subst h
      simp only [mutSet, Option.some.injEq]
      exact insertKV_insertKV_same k v es
    | cons k2 rest' =>
      simp only [mutSet] at h ⊢
      cases hl : lookupKV k es with
      | none =>
        rw [hl] at h
        simp only [Option.map_eq_some'] at h
        rcases h with ⟨r1, hr1, hfr⟩
        subst hfr
        simp [lookupKV_insertKV_self, ih _ _ _ hr1, insertKV_insertKV_same]
      | some val =>
        rw [hl] at h
        cases val with
        | vobj es' =>
          simp only [Option.map_eq_some'] at h
          rcases h with ⟨r1, hr1, hfr⟩
          subst hfr
          simp [lookupKV_insertKV_self, ih _ _ _ hr1, insertKV_insertKV_same]
        | vnull =>
          simp only [Option.map_eq_some'] at h
          rcases h with ⟨r1, hr1, hfr⟩
          subst hfr
          simp [lookupKV_insertKV_self, ih _ _ _ hr1, insertKV_insertKV_same]
        | vundef =>
          simp only [Option.map_eq_some'] at h
          rcases h with ⟨r1, hr1, hfr⟩
          subst hfr
          simp [lookupKV_insertKV_self, ih _ _ _ hr1, insertKV_insertKV_same]
        | vbool b => simp at h
        | vnum n => simp at h
        | vstr s => simp at h
        | vlist xs => simp at h

theorem setAtParts_idem (d : Doc) (parts : List String) (v : Val) (r : Doc × Doc)
    (h : setAtParts d parts v = some r) :
    ∃ r2 : Doc × Doc, setAtParts r.1 parts v = some r2 ∧ r2.1 = r.1 := by
  cases parts with
  | nil => simp [setAtParts] at h
  | cons k rest =>
    cases rest with
    | nil =>
      simp only [setAtParts, Option.some.injEq] at h
      subst h
      exact ⟨_, rfl, insertKV_insertKV_same k v d⟩
    | cons k2 rest' =>
      simp only [setAtParts] at h ⊢
      cases hl : lookupKV k d with
      | none =>
        rw [hl] at h
        simp only [Option.map_eq_some'] at h
        rcases h with ⟨r1, hr1, hfr⟩
        subst hfr
        refine ⟨(insertKV k (.vobj r1) d, insertKV k (.vobj r1) d), ?_, by simp⟩
        simp [lookupKV_insertKV_self, mutSet_idem _ _ _ _ hr1, insertKV_insertKV_same]
      | some val =>
        rw [hl] at h
        cases val with
        | vobj es =>
          simp only [Option.map_eq_some'] at h
          rcases h with ⟨r1, hr1, hfr⟩
          subst hfr
          refine ⟨(insertKV k (.vobj r1) d, insertKV k (.vobj r1) d), ?_, by simp⟩
          simp [lookupKV_insertKV_self, mutSet_idem _ _ _ _ hr1, insertKV_insertKV_same]
        | vnull =>
          simp only [Option.map_eq_some'] at h
          rcases h with ⟨r1, hr1, hfr⟩
          subst hfr
          refine ⟨(insertKV k (.vobj r1) d, insertKV k (.vobj r1) d), ?_, by simp⟩
          simp [lookupKV_insertKV_self, mutSet_idem _ _ _ _ hr1, insertKV_insertKV_same]
        | vundef =>
          simp only [Option.map_eq_some'] at h
          rcases h with ⟨r1, hr1, hfr⟩
          subst hfr
          refine ⟨(insertKV k (.vobj r1) d, insertKV k (.vobj r1) d), ?_, by simp⟩
          simp [lookupKV_insertKV_self, mutSet_idem _ _ _ _ hr1, insertKV_insertKV_same]
        | vbool b => simp at h
        | vnum n => simp at h
        | vstr s => simp at h
        | vlist xs => simp at h

theorem isMapping_insertKV_vobj {d : Doc} {sec : String} (k : String) (x : Doc)
    (h : isMapping d sec = true) : isMapping (insertKV k (.vobj x) d) sec = true := by
  by_cases hk : sec = k
  · subst hk
    simp [isMapping, lookupKV_insertKV_self]
  · unfold isMapping at h ⊢
    rw [lookupKV_insertKV_ne hk]
    exact h

theorem hasAllSections_insertKV {d : Doc} (k : String) (x : Doc)
    (h : hasAllSections (.vobj d) = true) :
    hasAllSections (.vobj (insertKV k (.vobj x) d)) = true := by
  simp only [hasAllSections, List.all_eq_true] at h ⊢
  intro a ha
  exact isMapping_insertKV_vobj k x (h a ha)

theorem setAtParts_preserves_sections (d : Doc) (k k2 : String) (rest : List String) (v : Val)
    (r : Doc × Doc) (hall : hasAllSections (.vobj d) = true)
    (h : setAtParts d (k :: k2 :: rest) v = some r) :
    hasAllSections (.vobj r.1) = true ∧ hasAllSections (.vobj r.2) = true := by
  simp only [setAtParts] at h
  cases hl : lookupKV k d with
  | none =>
    rw [hl] at h
    simp only [Option.map_eq_some'] at h
    rcases h with ⟨r1, hr1, hfr⟩
    subst hfr
    exact ⟨hasAllSections_insertKV k r1 hall, hall⟩
  | some val =>
    rw [hl] at h
    cases val with
    | vobj es =>
      simp only [Option.map_eq_some'] at h
      rcases h with ⟨r1, hr1, hfr⟩
      subst hfr
      exact ⟨hasAllSections_insertKV k r1 hall, hasAllSections_insertKV k r1 hall⟩
    | vnull =>
      simp only [Option.map_eq_some'] at h
      rcases h with ⟨r1, hr1, hfr⟩
      subst hfr
      exact ⟨hasAllSections_insertKV k r1 hall, hall⟩
    | vundef =>
      simp only [Option.map_eq_some'] at h
      rcases h with ⟨r1, hr1, hfr⟩
      subst hfr
      exact ⟨hasAllSections_insertKV k r1 hall, hall⟩
    | vbool b => simp at h
    | vnum n => simp at h
    | vstr s => simp at h
    | vlist xs => simp at h

theorem jsSetOf_go_nodup (l : List String) :
    ∀ acc : List String, (acc ++ l).Nodup →
      l.foldl (fun acc x => if x ∈ acc then acc else acc ++ [x]) acc = acc ++ l := by
  induction l with
  | nil => intro acc _; simp
  | cons x xs ih =>
    intro acc h
    have hx : x ∉ acc := by
      rcases List.nodup_append.mp h with ⟨_, _, hdisj⟩
      exact fun hmem => hdisj hmem (List.mem_cons_self x xs)
    have h' : ((acc ++ [x]) ++ xs).Nodup := by
      simpa [List.append_assoc] using h
    calc (x :: xs).foldl (fun acc x => if x ∈ acc then acc else acc ++ [x]) acc
        = xs.foldl (fun acc x => if x ∈ acc then acc else acc ++ [x]) (acc ++ [x]) := by
          simp [List.foldl_cons, hx]
      _ = (acc ++ [x]) ++ xs := ih (acc ++ [x]) h'
      _ = acc ++ x :: xs := by simp [List.append_assoc]

theorem jsSetOf_eq_self {values : List String} (h : values.Nodup) :
    jsSetOf values = values := by
  simpa using jsSetOf_go_nodup values [] (by simpa using h)

theorem filter_erase_ne (o : String) :
    ∀ l : List String, (l.erase o).filter (fun x => x != o) = l.filter (fun x => x != o) := by
  intro l
  induction l with
  | nil => simp
  | cons y ys ih =>
    by_cases hy : y = o
    · subst hy
      simp [List.erase_cons_head]
    · rw [List.erase_cons_tail (by simpa using hy)]
      simp only [List.filter_cons]
      rw [ih]

theorem sw105_not_100 (v : String) (h : jsStartsWith v "10.5" = true) :
    jsStartsWith v "10.0" = false := by
  have h' : startsWithL ['1', '0', '.', '5'] v.data = true := h
  show startsWithL ['1', '0', '.', '0'] v.data = false
  rcases hv : v.data with _ | ⟨c1, _ | ⟨c2, _ | ⟨c3, _ | ⟨c4, rest⟩⟩⟩⟩ <;>
    rw [hv] at h' <;> simp [startsWithL] at h' ⊢
  obtain ⟨e1, e2, e3, e4⟩ := h'
  subst e1; subst e2; subst e3; subst e4
  decide

theorem sw116_not_100 (v : String) (h : jsStartsWith v "11.6" = true) :
    jsStartsWith v "10.0" = false := by
  have h' : startsWithL ['1', '1', '.', '6'] v.data = true := h
  show startsWithL ['1', '0', '.', '0'] v.data = false
  rcases hv : v.data with _ | ⟨c1, _ | ⟨c2, _ | ⟨c3, _ | ⟨c4, rest⟩⟩⟩⟩ <;>
    rw [hv] at h' <;> simp [startsWithL] at h' ⊢
  obtain ⟨e1, e2, e3, e4⟩ := h'
  subst e1; subst e2; subst e3; subst e4
  decide

theorem sw116_not_105 (v : String) (h : jsStartsWith v "11.6" = true) :
    jsStartsWith v "10.5" = false := by
  have h' : startsWithL ['1', '1', '.', '6'] v.data = true := h
  show startsWithL ['1', '0', '.', '5'] v.data = false
  rcases hv : v.data with _ | ⟨c1, _ | ⟨c2, _ | ⟨c3, _ | ⟨c4, rest⟩⟩⟩⟩ <;>
    rw [hv] at h' <;> simp [startsWithL] at h' ⊢
  obtain ⟨e1, e2, e3, e4⟩ := h'
  subst e1; subst e2; subst e3; subst e4
  decide

/-- Claim C1: the spec asserts that `update(d, p, v)` never mutates `d`.
The code violates this: the source clones only the root object and then
walks *into* the nested objects it shares with the original document.
Evaluated at the default document and path `warp_range.mode`, the call
returns the expected new root, but the original document afterwards (the
second component) equals that same value and differs from its pre-call
value: its shared `warp_range` object has acquired `mode` in place.  Since
the function's root-clone and its use in a functional React state update
show the immutable-update intent, this is a bug in the code. -/
theorem setAt_mutates_original :
    setAt DEFAULT_STATE "warp_range.mode" (.vstr "rope") =
      some (insertKV "warp_range" (.vobj (.cons "mode" (.vstr "rope") .nil)) DEFAULT_STATE,
        insertKV "warp_range" (.vobj (.cons "mode" (.vstr "rope") .nil)) DEFAULT_STATE) ∧
    insertKV "warp_range" (.vobj (.cons "mode" (.vstr "rope") .nil)) DEFAULT_STATE ≠
      DEFAULT_STATE :=
  ⟨rfl, by decide⟩

/-- Claim C2 counterexample: the document produced at startup from a
persisted snapshot need not contain the seven section keys — the parse
result is used verbatim with no validation, so the parseable snapshot `{}`
yields a document with no sections at all. -/
theorem initState_missing_sections_cex :
    ¬ (∀ stored : Option (Option Val), hasAllSections (initState stored) = true) :=
  fun h => absurd (h (some (some (.vobj .nil)))) (by decide)

/-- Claim C2, amended: the default document (used when storage is empty or
unparseable) contains all seven section keys as mappings, and any
successful `update` along a dot-path of at least two segments preserves the
invariant, in both the returned document and the post-call original.  The
invariant is *not* re-established for a parseable persisted snapshot, which
is adopted verbatim. -/
theorem sections_invariant :
    hasAllSections (.vobj DEFAULT_STATE) = true ∧
    hasAllSections (initState none) = true ∧
    hasAllSections (initState (some none)) = true ∧
    (∀ (d : Doc) (p : String) (v : Val) (r : Doc × Doc),
      hasAllSections (.vobj d) = true → 2 ≤ (splitDot p).length →
      setAt d p v = some r →
      hasAllSections (.vobj r.1) = true ∧ hasAllSections (.vobj r.2) = true) := by
  refine ⟨by decide, by decide, by decide, ?_⟩
  intro d p v r hall hlen h
  unfold setAt at h
  rcases hsplit : splitDot p with _ | ⟨k, _ | ⟨k2, rest⟩⟩
  · rw [hsplit] at hlen; simp at hlen
  · rw [hsplit] at hlen; simp at hlen
  · rw [hsplit] at h
    exact setAtParts_preserves_sections d k k2 rest v r hall h

/-- Claim C2 witness: the invariant holds for the concrete document
obtained by updating `etp.blocks` in the default document. -/
theorem sections_invariant_witness :
    hasAllSections (.vobj (etpDoc1, etpDoc1).1) = true :=
  (sections_invariant.2.2.2 DEFAULT_STATE "etp.blocks" (.vlist ["Physical"])
    (etpDoc1, etpDoc1) (by decide) (by decide) rfl).1

/-- Claim C3 counterexample: `next()` then `back()` does not return to the
original step from every step — at the last step (`handover`), `next` is a
no-op and `back` then moves to `safety`. -/
theorem next_back_last_cex :
    ¬ (∀ s : StepKey, backStep (nextStep s) = s) :=
  fun h => absurd (h .handover) (by decide)

/-- Claim C3, amended: `back` at the first step and `next` at the last step
are no-ops, and `next` then `back` returns to the original step from every
step except the last (where the pair lands on the preceding step). -/
theorem nav_bounds :
    backStep .warp = .warp ∧ nextStep .handover = .handover ∧
    (∀ s : StepKey, s ≠ .handover → backStep (nextStep s) = s) := by
  refine ⟨by decide, by decide, ?_⟩
  intro s h
  cases s <;> revert h <;> decide

/-- Claim C3 witness: `next` then `back` from `etp` returns to `etp`. -/
theorem nav_bounds_witness : backStep (nextStep StepKey.etp) = StepKey.etp :=
  nav_bounds.2.2 StepKey.etp (by decide)

/-- Claim C4: structural sharing — after a successful
`update(d, [s1, field], v)`, any distinct top-level section `s2 ≠ s1` holds
the same value as in `d`, in both the returned document and the post-call
original (the root shallow copy carries the sibling entries over unchanged,
which is the functional image of reference identity). -/
theorem setAt_structural_sharing (d : Doc) (s1 s2 field : String) (v : Val)
    (r : Doc × Doc) (hne : s2 ≠ s1) (h : setAtParts d [s1, field] v = some r) :
    lookupKV s2 r.1 = lookupKV s2 d ∧ lookupKV s2 r.2 = lookupKV s2 d := by
  simp only [setAtParts] at h
  cases hl : lookupKV s1 d with
  | none =>
    rw [hl] at h
    simp only [Option.map_eq_some'] at h
    rcases h with ⟨r1, hr1, hfr⟩
    subst hfr
    exact ⟨lookupKV_insertKV_ne hne _ _, rfl⟩
  | some val =>
    rw [hl] at h
    cases val with
    | vobj es =>
      simp only [Option.map_eq_some'] at h
      rcases h with ⟨r1, hr1, hfr⟩
      subst hfr
      exact ⟨lookupKV_insertKV_ne hne _ _, lookupKV_insertKV_ne hne _ _⟩
    | vnull =>
      simp only [Option.map_eq_some'] at h
      rcases h with ⟨r1, hr1, hfr⟩
      subst hfr
      exact ⟨lookupKV_insertKV_ne hne _ _, rfl⟩
    | vundef =>
      simp only [Option.map_eq_some'] at h
      rcases h with ⟨r1, hr1, hfr⟩
      subst hfr
      exact ⟨lookupKV_insertKV_ne hne _ _, rfl⟩
    | vbool b => simp at h
    | vnum n => simp at h
    | vstr s => simp at h
    | vlist xs => simp at h

/-- Claim C4 witness: updating `etp.blocks` in the default document leaves
the `warp_range` section entry unchanged. -/
theorem setAt_structural_sharing_witness :
    lookupKV "warp_range" (etpDoc1, etpDoc1).1 = lookupKV "warp_range" DEFAULT_STATE ∧
    lookupKV "warp_range" (etpDoc1, etpDoc1).2 = lookupKV "warp_range" DEFAULT_STATE :=
  setAt_structural_sharing DEFAULT_STATE "etp" "warp_range" "blocks" (.vlist ["Physical"])
    (etpDoc1, etpDoc1) (by decide) rfl

/-- Claim C5: the autosave scheduler is a trailing-edge debounce with a
500-unit quiet period.  Changes at t=0 and t=300 produce exactly one write,
at t=800, of the t=300 value; changes at t=0 and t=600 produce exactly the
two writes (500, first value) and (1100, second value); every change leaves
exactly one pending write, scheduled 500 after it (cancel-and-replace, so
at most one pending write ever exists — `pending` is a single slot); and a
teardown before the deadline cancels the pending write, so nothing is ever
written. -/
theorem autosave_debounce {α : Type} (a b : α) (t u : Nat) (hu : u < t + 500) :
    flushWrites (runEvs [SchedEv.change 0 a, SchedEv.change 300 b]) = [(800, b)] ∧
    flushWrites (runEvs [SchedEv.change 0 a, SchedEv.change 600 b]) = [(500, a), (1100, b)] ∧
    (∀ (s : SchedState α) (t' : Nat) (d : α),
      (applyEv s (SchedEv.change t' d)).pending = some (t' + 500, d)) ∧
    flushWrites (runEvs [SchedEv.change t a, SchedEv.teardown u]) = [] := by
  refine ⟨rfl, rfl, fun s t' d => rfl, ?_⟩
  have hne : ¬ (t + 500 ≤ u) := by omega
  simp [runEvs, applyEv, fireDue, schedInit, flushWrites, hne]

/-- Claim C5 witness: a change at t=0 followed by teardown at t=100
produces no write at all. -/
theorem autosave_debounce_witness :
    flushWrites (runEvs [SchedEv.change 0 (0 : Nat), SchedEv.teardown 100]) = [] :=
  (autosave_debounce (0 : Nat) 0 0 100 (by omega)).2.2.2

/-- Claim C6: for a duplicate-free ordered selection (which is what the
`Checkset` state always is — it is always a previous `Array.from(set)`),
the toggle removes the option if present (and it is then absent from the
result), otherwise appends it at the end; the relative order of the
non-toggled elements is preserved; and toggling the same option twice
restores exactly the original set membership. -/
theorem toggle_spec (values : List String) (o : String) (hnd : values.Nodup) :
    (o ∈ values → toggleOption values o = values.erase o ∧ o ∉ toggleOption values o) ∧
    (o ∉ values → toggleOption values o = values ++ [o]) ∧
    (toggleOption values o).filter (fun x => x != o) = values.filter (fun x => x != o) ∧
    (∀ x : String, x ∈ toggleOption (toggleOption values o) o ↔ x ∈ values) := by
  have hset : jsSetOf values = values := jsSetOf_eq_self hnd
  by_cases ho : o ∈ values
  · have ht : toggleOption values o = values.erase o := by
      simp [toggleOption, hset, ho]
    refine ⟨fun _ => ⟨ht, ?_⟩, fun hno => absurd ho hno, ?_, ?_⟩
    · rw [ht]; exact hnd.not_mem_erase
    · rw [ht]; exact filter_erase_ne o values
    · intro x
      have hnd1 : (values.erase o).Nodup := hnd.erase o
      have hno1 : o ∉ values.erase o := hnd.not_mem_erase
      have hset1 : jsSetOf (values.erase o) = values.erase o := jsSetOf_eq_self hnd1
      have ht2 : toggleOption (toggleOption values o) o = values.erase o ++ [o] := by
        rw [ht]
        simp only [toggleOption]
        rw [hset1, if_neg hno1]
      rw [ht2]
      by_cases hx : x = o
      · subst hx; simp [ho]
      · simp [List.mem_append, hx, List.mem_erase_of_ne hx]
  · have ht : toggleOption values o = values ++ [o] := by
      simp [toggleOption, hset, ho]
    have hnd1 : (values ++ [o]).Nodup := by
      simp [List.nodup_append, hnd, ho]
    have hset1 : jsSetOf (values ++ [o]) = values ++ [o] := jsSetOf_eq_self hnd1
    have ho1 : o ∈ values ++ [o] := by simp
    have ht2 : toggleOption (toggleOption values o) o = values := by
      rw [ht]
      simp only [toggleOption, hset1, if_pos ho1]
      rw [List.erase_append_right _ ho]
      simp
    refine ⟨fun hmem => absurd hmem ho, fun _ => ht, ?_, ?_⟩
    · rw [ht]
      simp [List.filter_append]
    · intro x
      rw [ht2]

/-- Claim C6 witness: toggling an absent option appends it at the end. -/
theorem toggle_spec_witness :
    toggleOption ["Physical"] "Biological" = ["Physical"] ++ ["Biological"] :=
  (toggle_spec ["Physical"] "Biological" (by decide)).2.1 (by decide)

/-- Claim C7 counterexample: `toNum` can store NaN — the non-empty,
non-numeric input "abc" is coerced by `Number` to NaN, which is stored. -/
theorem toNum_nan_cex :
    ¬ (∀ s : String, toNum s ≠ some JsNum.nan) :=
  fun h => h "abc" rfl

/-- Claim C7, amended: the empty string maps to the absent value, and any
other input stores exactly its JS numeric coercion.  Consequently zero is
stored only when the input coerces to zero (it parses to `0`, or is
whitespace-only, which JS coerces to `0`), and the result is a number
(never NaN) whenever the trimmed input is a valid decimal literal; but a
non-empty input that is not numeric stores NaN. -/
theorem toNum_spec :
    toNum "" = none ∧
    (∀ s : String, s ≠ "" → toNum s = some (jsNumber s)) ∧
    (∀ s : String, toNum s = some (JsNum.num 0) →
      parseDec (trimWs s.data) = some 0 ∨ (trimWs s.data).isEmpty = true) ∧
    (∀ s : String, s ≠ "" → (parseDec (trimWs s.data)).isSome = true →
      ∃ q : ℚ, toNum s = some (JsNum.num q)) := by
  refine ⟨rfl, ?_, ?_, ?_⟩
  · intro s h
    simp [toNum, h]
  · intro s h
    by_cases he : s = ""
    · rw [he] at h
      simp [toNum] at h
    · rw [toNum, if_neg he, Option.some.injEq] at h
      unfold jsNumber at h
      by_cases ht : (trimWs s.data).isEmpty = true
      · right; exact ht
      · left
        rw [if_neg ht] at h
        cases hp : parseDec (trimWs s.data) with
        | none => rw [hp] at h; simp at h
        | some q =>
          rw [hp] at h
          simp only [JsNum.num.injEq] at h
          simp only [hp, h]
  · intro s h hsome
    rw [toNum, if_neg h]
    unfold jsNumber
    by_cases ht : (trimWs s.data).isEmpty = true
    · exact ⟨0, by simp [ht]⟩
    · cases hp : parseDec (trimWs s.data) with
      | none => rw [hp] at hsome; simp at hsome
      | some q => exact ⟨q, by simp [ht, hp]⟩

/-- Claim C7 witness: a numeric input is stored as a number. -/
theorem toNum_spec_witness :
    ∃ q : ℚ, toNum "42" = some (JsNum.num q) :=
  toNum_spec.2.2.2 "42" (by decide) (by rfl)

/-- Claim C8 counterexample: Escape does not close the command palette —
the handler's Escape branch touches only the drawer, the accordion and the
why panel, so from a state with the palette open it stays open. -/
theorem escape_palette_cex :
    ¬ (∀ s : NavState,
        (onKey ⟨"Escape", false, false, false, true⟩ s).paletteOpen = false) :=
  fun h => absurd (h ⟨.warp, false, none, false, true⟩) (by decide)

/-- Claim C8, amended: Escape (with focus within the wizard, any modifier
state) closes the advanced panel, collapses the accordion and closes the
why panel, and leaves the current step unchanged; the command palette
dialog's open state is untouched by this code (the platform's native
`dialog` cancel behavior, outside the source, is what dismisses it). -/
theorem escape_closes_overlays (s : NavState) (sh c m : Bool) :
    (onKey ⟨"Escape", sh, c, m, true⟩ s).advancedOpen = false ∧
    (onKey ⟨"Escape", sh, c, m, true⟩ s).openAccordion = none ∧
    (onKey ⟨"Escape", sh, c, m, true⟩ s).whyOpen = false ∧
    (onKey ⟨"Escape", sh, c, m, true⟩ s).step = s.step ∧
    (onKey ⟨"Escape", sh, c, m, true⟩ s).paletteOpen = s.paletteOpen := by
  have h1 : jsToLower "Escape" ≠ "k" := by decide
  have h2 : "Escape" ≠ "Tab" := by decide
  simp [onKey, h1, h2]

/-- Claim C9: idempotence of identical writes — if `update(d, p, v)`
succeeds with new document `n`, then `update(n, p, v)` succeeds and returns
a document deep-equal to `n`. -/
theorem setAt_idem (d : Doc) (p : String) (v : Val) (r : Doc × Doc)
    (h : setAt d p v = some r) :
    ∃ r2 : Doc × Doc, setAt r.1 p v = some r2 ∧ r2.1 = r.1 :=
  setAtParts_idem d (splitDot p) v r h

/-- Claim C9 witness: re-applying the `etp.blocks` update to its own result
reproduces that result. -/
theorem setAt_idem_witness :
    ∃ r2 : Doc × Doc,
      setAt (etpDoc1, etpDoc1).1 "etp.blocks" (.vlist ["Physical"]) = some r2 ∧
      r2.1 = (etpDoc1, etpDoc1).1 :=
  setAt_idem DEFAULT_STATE "etp.blocks" (.vlist ["Physical"]) (etpDoc1, etpDoc1) rfl

/-- Claim C10: the pH-window normalizer — any string starting with "10.0"
is stored as "10.0–10.4", any starting with "10.5" (in particular the
displayed "10.5–11.5 (mono-enolate)") as "10.5–11.5", any starting with
"11.6" as "11.6–12.0", and any other string is stored unchanged.  (The
three prefixes are mutually exclusive, which the proof establishes.) -/
theorem mapPh_spec (v : String) :
    (jsStartsWith v "10.0" = true → mapPh v = "10.0–10.4") ∧
    (jsStartsWith v "10.5" = true → mapPh v = "10.5–11.5") ∧
    (jsStartsWith v "11.6" = true → mapPh v = "11.6–12.0") ∧
    (jsStartsWith v "10.0" = false → jsStartsWith v "10.5" = false →
      jsStartsWith v "11.6" = false → mapPh v = v) := by
  refine ⟨?_, ?_, ?_, ?_⟩
  · intro h
    simp [mapPh, h]
  · intro h
    simp [mapPh, h, sw105_not_100 v h]
  · intro h
    simp [mapPh, h, sw116_not_100 v h, sw116_not_105 v h]
  · intro h1 h2 h3
    simp [mapPh, h1, h2, h3]

/-- Claim C10 witness: the displayed mono-enolate option is stored as its
normalized window. -/
theorem mapPh_spec_witness : mapPh "10.5–11.5 (mono-enolate)" = "10.5–11.5" :=
  (mapPh_spec "10.5–11.5 (mono-enolate)").2.1 (by decide)
